import Mathlib

/-!
Wordle: guess evaluation and the row/column state machine of `script.js`.

A shallow embedding of the logic of `src/script.js`.

Conventions of the embedding

* A JavaScript string is a `List Char`.  Every letter the game handles is a
  single UTF-16 code unit (the input handlers only pass `A`..`Z`), so `s[i]`
  (indexing by code unit) and `for (ch of s)` (iteration by code point) agree
  and both are read off the list; `s[i]` out of range is `undefined`, here
  `none`.
* A property of the object `letterCount` holds `undefined`, `NaN` or a
  number; that is the type `JSNum`.  Its keys are one-letter strings, or the
  string `"undefined"` when `guess[i]` is `undefined`; that is `Option Char`.
* The DOM is reduced to what the game logic reads back: the text of the 30
  tiles and the status class of each keyboard key.  Animation classes,
  timers and the message text are not part of the state.
* `submitGuess` is asynchronous in the source (it awaits the dictionary
  lookup).  The embedding runs each input handler to completion, the answer
  of the lookup being an argument of the step.
-/

namespace Wordle

/-- The three status strings `"absent"`, `"present"`, `"correct"`. -/
inductive Status where
  | absent
  | present
  | correct
  deriving DecidableEq

def MAX_ROWS : Nat := 6

def MAX_COLS : Nat := 5

/-- A value stored in a property of `letterCount`. -/
inductive JSNum where
  | undef
  | nan
  | num (n : Int)
  deriving DecidableEq

/-- The expression `x || 0` (then used as a number). -/
def JSNum.orZero : JSNum → Int
  | .num n => n
  | _ => 0

/-- The statement `x--`: `undefined` and `NaN` both become `NaN`. -/
def JSNum.dec : JSNum → JSNum
  | .num n => .num (n - 1)
  | _ => .nan

/-- The test `x > 0`: false on `undefined` and on `NaN`. -/
def JSNum.pos : JSNum → Bool
  | .num n => decide (0 < n)
  | _ => false

/-- The object `letterCount`; the key `none` is the property `"undefined"`. -/
abbrev LetterCount := Option Char → JSNum

/-- The assignment `letterCount[k] = v`. -/
def setCount (lc : LetterCount) (k : Option Char) (v : JSNum) : LetterCount :=
  fun k' => if k' = k then v else lc k'

/-- Lines 256-259: `letterCount[ch] = (letterCount[ch] || 0) + 1` for each `ch` of `target`. -/
def buildLetterCount (target : List Char) : LetterCount :=
  target.foldl
    (fun lc ch => setCount lc (some ch) (.num ((lc (some ch)).orZero + 1)))
    (fun _ => .undef)

/-- Body of the first loop (lines 262-267) at index `i`. -/
def firstPass (guess target : List Char) (st : List Status × LetterCount) (i : Nat) :
    List Status × LetterCount :=
  if guess[i]? = target[i]? then
    (st.1.set i .correct, setCount st.2 guess[i]? (st.2 guess[i]?).dec)
  else st

/-- Body of the second loop (lines 270-278) at index `i`. -/
def secondPass (guess : List Char) (st : List Status × LetterCount) (i : Nat) :
    List Status × LetterCount :=
  if st.1[i]? = some .correct then st
  else if (st.2 guess[i]?).pos then
    (st.1.set i .present, setCount st.2 guess[i]? (st.2 guess[i]?).dec)
  else st

/-- The function `evaluateGuess(guess, target)` (lines 253-281). -/
def evaluateGuess (guess target : List Char) : List Status :=
  let st0 : List Status × LetterCount :=
    (List.replicate MAX_COLS .absent, buildLetterCount target)
  let st1 := (List.range MAX_COLS).foldl (firstPass guess target) st0
  let st2 := (List.range MAX_COLS).foldl (secondPass guess) st1
  st2.1

/-- Number of indices `j < n` at which `guess` and `target` both hold `c`. -/
def matched (guess target : List Char) (n : Nat) (c : Char) : Nat :=
  ((List.range n).filter
    (fun j => decide (guess[j]? = some c ∧ target[j]? = some c))).length

/-- Number of indices `j < n` at which `guess` holds `c` and `target` holds something else. -/
def misses (guess target : List Char) (n : Nat) (c : Char) : Nat :=
  ((List.range n).filter
    (fun j => decide (guess[j]? ≠ target[j]? ∧ guess[j]? = some c))).length

/-- Occurrences of `c` in `target` left over once the exact matches are taken off:
the value of `letterCount[c]` when the second loop starts. -/
def avail (guess target : List Char) (c : Char) : Int :=
  (target.count c : Int) - (matched guess target MAX_COLS c : Int)

/-- Whether index `j`, not an exact match, is marked `present`: the earlier
non-matching occurrences of its letter have not used up what is available. -/
def markedPresent (guess target : List Char) (j : Nat) : Bool :=
  match guess[j]? with
  | some c => decide ((misses guess target j c : Int) < avail guess target c)
  | none => false

/-- Number of indices `i < n` at which `guess` holds `c` and `res` says
`correct` or `present`. -/
def marks (guess : List Char) (res : List Status) (n : Nat) (c : Char) : Nat :=
  ((List.range n).filter
    (fun i => decide (guess[i]? = some c
      ∧ (res[i]? = some Status.correct ∨ res[i]? = some Status.present)))).length

/-! ## Keyboard status -/

/-- The array `keys`: the letters whose key elements `createKeyboard` builds first. -/
def keys : List Char :=
  ['Q', 'W', 'E', 'R', 'T', 'Y', 'U', 'I', 'O', 'P',
   'A', 'S', 'D', 'F', 'G', 'H', 'J', 'K', 'L',
   'Z', 'X', 'C', 'V', 'B', 'N', 'M']

/-- Whether `find(k => k.textContent === letter)` finds a key element for a
one-character `letter`: the texts of the keys are the letters of `keys`, then
`"ENTER"`, then `"⌫"`. -/
def hasKey (letter : Char) : Bool :=
  letter ∈ keys || letter == '⌫'

/-- The object `priority` of `updateKeyboardKey`. -/
def priority : Status → Nat
  | .absent => 1
  | .present => 2
  | .correct => 3

/-- The order of the statuses as the specification words it, written out on its
own and not read off the table `priority` of the code: an unmarked key is below
`absent`, `absent` below `present`, `present` below `correct`. -/
def statusRank : Option Status → Nat
  | none => 0
  | some .absent => 1
  | some .present => 2
  | some .correct => 3

/-- The maximum of two stored statuses in the order `statusRank`. -/
def statusMax (a b : Option Status) : Option Status :=
  if statusRank a ≤ statusRank b then b else a

/-- The status classes of the key elements, by key text: `none` when the key carries
none of `correct`, `present`, `absent`.  A key never carries two of them, since
`updateKeyboardKey` removes all three before it adds one. -/
abbrev KeyStatus := Char → Option Status

/-- Replace the status class of the key `letter`. -/
def setKey (ks : KeyStatus) (letter : Char) (v : Option Status) : KeyStatus :=
  fun l => if l = letter then v else ks l

/-- The function `updateKeyboardKey(letter, status)` (lines 300-316).  `letter` is
`none` for `undefined` (no key has that text).  `status` is `none` for `undefined`:
then `priority[status]` is `undefined`, the comparison is false, the three classes
are removed and the class added is `"undefined"`, which is no status class. -/
def updateKeyboardKey (ks : KeyStatus) (letter : Option Char) (status : Option Status) :
    KeyStatus :=
  match letter with
  | none => ks
  | some l =>
    if hasKey l = false then ks
    else
      match ks l, status with
      | some current, some st =>
        if priority current ≥ priority st then ks else setKey ks l (some st)
      | some _, none => setKey ks l none
      | none, st => setKey ks l st

/-- The function `updateKeyboard(guess, evaluation)` (lines 318-322). -/
def updateKeyboard (ks : KeyStatus) (guess : List Char) (evaluation : List Status) :
    KeyStatus :=
  (List.range MAX_COLS).foldl
    (fun ks i => updateKeyboardKey ks guess[i]? evaluation[i]?) ks

/-! ## Rows, columns and tiles -/

/-- The mutable globals and the part of the DOM the game logic reads back.
`tiles i` is the `textContent` of the `i`-th element of the node list `tiles`,
which has `MAX_ROWS * MAX_COLS` elements; larger indices are not on the board. -/
structure State where
  currentRow : Nat
  currentCol : Nat
  targetWord : List Char
  tiles : Nat → List Char
  keyStatus : KeyStatus

/-- The state `initGame` sets up, once `targetWord` has been assigned (the fetched
word or the fallback): row 0, column 0, empty tiles, unmarked keys. -/
def initGame (targetWord : List Char) : State :=
  { currentRow := 0
    currentCol := 0
    targetWord := targetWord
    tiles := fun _ => []
    keyStatus := fun _ => none }

/-- The assignment `tiles[tileIndex].textContent = text`. -/
def setTile (tiles : Nat → List Char) (tileIndex : Nat) (text : List Char) :
    Nat → List Char :=
  fun i => if i = tileIndex then text else tiles i

/-- The tile index `insertLetter` writes to, `none` when its guard returns. -/
def insertLetterIndex (s : State) : Option Nat :=
  if s.currentCol ≥ MAX_COLS ∨ s.currentRow ≥ MAX_ROWS then none
  else some (s.currentRow * MAX_COLS + s.currentCol)

/-- The function `insertLetter(letter)` (lines 374-387, overriding the earlier
one of lines 144-154).  Where `tiles[tileIndex]` does not exist the
handler throws before it has written anything. -/
def insertLetter (s : State) (letter : Char) : State :=
  match insertLetterIndex s with
  | none => s
  | some tileIndex =>
    if tileIndex < MAX_ROWS * MAX_COLS then
      { s with tiles := setTile s.tiles tileIndex [letter]
               currentCol := s.currentCol + 1 }
    else s

/-- The tile index `deleteLetter` writes to, `none` when its guard returns. -/
def deleteLetterIndex (s : State) : Option Nat :=
  if s.currentCol = 0 ∨ s.currentRow ≥ MAX_ROWS then none
  else some (s.currentRow * MAX_COLS + (s.currentCol - 1))

/-- The function `deleteLetter()` (lines 156-165).  `currentCol--` comes first, so
it stays done where `tiles[tileIndex]` does not exist and the handler throws. -/
def deleteLetter (s : State) : State :=
  match deleteLetterIndex s with
  | none => s
  | some tileIndex =>
    if tileIndex < MAX_ROWS * MAX_COLS then
      { s with currentCol := s.currentCol - 1
               tiles := setTile s.tiles tileIndex [] }
    else { s with currentCol := s.currentCol - 1 }

/-- The function `getCurrentGuess()` (lines 167-175): `none` when it throws on a
tile index outside the board. -/
def getCurrentGuess (s : State) : Option (List Char) :=
  if s.currentCol < MAX_COLS then some []
  else
    (List.range MAX_COLS).foldl
      (fun acc i =>
        match acc with
        | none => none
        | some guess =>
          if s.currentRow * MAX_COLS + i < MAX_ROWS * MAX_COLS then
            some (guess ++ s.tiles (s.currentRow * MAX_COLS + i))
          else none)
      (some [])

/-- The function `isValidGuess(guess)` (lines 239-243); `isRealWord` is the answer of
the dictionary lookup, false as well when the lookup fails. -/
def isValidGuess (isRealWord : Bool) (guess : List Char) : Bool :=
  if guess.length ≠ MAX_COLS then false else isRealWord

/-- The function `isWinningGuess(guess)` (lines 245-247). -/
def isWinningGuess (s : State) (guess : List Char) : Bool :=
  decide (guess = s.targetWord)

/-- The function `advanceRow()` (lines 327-331); the class `locked` it adds to the
tiles of the row is read nowhere. -/
def advanceRow (s : State) : State :=
  { s with currentRow := s.currentRow + 1, currentCol := 0 }

/-- The branch `submitGuess` ends in. -/
inductive Outcome where
  | notEnoughLetters
  | invalidWord
  | win
  | lose
  | advanced
  | typeError
  deriving DecidableEq

/-- The function `submitGuess()` (lines 208-236), given the answer `isRealWord` of
the dictionary lookup it awaits.

* `notEnoughLetters`: `showMessage("Not enough letters")`, return.
* `invalidWord`: `showMessage("Invalid word")`, then `shakeRow`, which throws on its
  undefined variable; nothing is written on this path.
* `typeError`: `getCurrentGuess` read a tile outside the board, or `colorRowTiles`
  found no row element (the rows are `row-0` .. `row-5`); nothing was written yet.
* `win`: `handleWin()`, return; the row is not advanced.
* `lose`: `advanceRow()`, then `currentRow === MAX_ROWS` and `handleLose()`.
* `advanced`: `advanceRow()` and the game goes on. -/
def submitGuess (s : State) (isRealWord : Bool) : State × Outcome :=
  match getCurrentGuess s with
  | none => (s, .typeError)
  | some guess =>
    if guess.length < MAX_COLS then (s, .notEnoughLetters)
    else if isValidGuess isRealWord guess = false then (s, .invalidWord)
    else
      let evaluation := evaluateGuess guess s.targetWord
      if s.currentRow ≥ MAX_ROWS then (s, .typeError)
      else
        let s1 := { s with keyStatus := updateKeyboard s.keyStatus guess evaluation }
        if isWinningGuess s1 guess then (s1, .win)
        else
          let s2 := advanceRow s1
          if s2.currentRow = MAX_ROWS then (s2, .lose) else (s2, .advanced)

/-- An input event, as dispatched by `handlePhysicalKey` and `handleOnScreenKey`:
a letter key, backspace, or enter together with the answer the dictionary lookup
gives to that submission. -/
inductive Input where
  | insert (letter : Char)
  | delete
  | submit (isRealWord : Bool)

/-- One input event: the new state, and the outcome if it was a submission. -/
def step (s : State) : Input → State × List Outcome
  | .insert letter => (insertLetter s letter, [])
  | .delete => (deleteLetter s, [])
  | .submit isRealWord => ((submitGuess s isRealWord).1, [(submitGuess s isRealWord).2])

/-- A sequence of input events: the final state and the outcomes of the
submissions, in order. -/
def run (s : State) : List Input → State × List Outcome
  | [] => (s, [])
  | i :: rest =>
    ((run (step s i).1 rest).1, (step s i).2 ++ (run (step s i).1 rest).2)

/-- The input events of typing the letters of `guess` and pressing enter, the
dictionary accepting the word. -/
def typeAndSubmit (guess : List Char) : List Input :=
  guess.map Input.insert ++ [Input.submit true]

/-- Outcome of a non-winning, accepted guess submitted on row `row`. -/
def missOutcome (row : Nat) : Outcome :=
  if row + 1 = MAX_ROWS then Outcome.lose else Outcome.advanced

/-! ## Lemmas -/

theorem filter_range_succ_length (p : Nat → Bool) (n : Nat) :
    ((List.range (n + 1)).filter p).length
      = ((List.range n).filter p).length + (if p n then 1 else 0) := by
  rw [List.range_succ, List.filter_append, List.length_append]
  by_cases h : p n <;> simp [h]

theorem matched_succ (guess target : List Char) (n : Nat) (c : Char) :
    matched guess target (n + 1) c
      = matched guess target n c
        + (if guess[n]? = some c ∧ target[n]? = some c then 1 else 0) := by
  unfold matched
  rw [filter_range_succ_length]
  simp

theorem misses_succ (guess target : List Char) (n : Nat) (c : Char) :
    misses guess target (n + 1) c
      = misses guess target n c
        + (if guess[n]? ≠ target[n]? ∧ guess[n]? = some c then 1 else 0) := by
  unfold misses
  rw [filter_range_succ_length]
  simp

theorem buildLetterCount_fold_some (target : List Char) (lc : LetterCount) (c : Char) :
    (target.foldl
      (fun lc ch => setCount lc (some ch) (.num ((lc (some ch)).orZero + 1))) lc) (some c)
      = if c ∈ target then .num ((lc (some c)).orZero + target.count c) else lc (some c) := by
  induction target generalizing lc with
  | nil => simp
  | cons a t ih =>
    rw [List.foldl_cons, ih]
    by_cases h : c = a
    · subst h
      by_cases hm : c ∈ t
      · simp [setCount, JSNum.orZero, hm]; omega
      · simp [setCount, JSNum.orZero, hm, List.count_eq_zero_of_not_mem]
    · have h2 : ¬ a = c := fun e => h e.symm
      simp [setCount, h, h2, List.count_cons]

theorem buildLetterCount_fold_none (target : List Char) (lc : LetterCount) :
    (target.foldl
      (fun lc ch => setCount lc (some ch) (.num ((lc (some ch)).orZero + 1))) lc) none
      = lc none := by
  induction target generalizing lc with
  | nil => simp
  | cons a t ih =>
    rw [List.foldl_cons, ih]
    simp [setCount]

theorem buildLetterCount_some (target : List Char) (c : Char) :
    buildLetterCount target (some c)
      = if c ∈ target then .num (target.count c) else .undef := by
  unfold buildLetterCount
  rw [buildLetterCount_fold_some]
  simp [JSNum.orZero]

theorem buildLetterCount_none (target : List Char) :
    buildLetterCount target none = .undef := by
  unfold buildLetterCount
  rw [buildLetterCount_fold_none]

/-- State of `evaluateGuess` after the first loop has run over the indices below `n`. -/
theorem firstPass_fold (guess target : List Char) (hg : guess.length = 5)
    (ht : target.length = 5) (n : Nat) (hn : n ≤ 5) :
    ((List.range n).foldl (firstPass guess target)
        (List.replicate MAX_COLS .absent, buildLetterCount target)).1.length = 5
    ∧ (∀ j, j < 5 →
        ((List.range n).foldl (firstPass guess target)
          (List.replicate MAX_COLS .absent, buildLetterCount target)).1[j]?
          = some (if j < n ∧ guess[j]? = target[j]? then Status.correct else Status.absent))
    ∧ ((List.range n).foldl (firstPass guess target)
        (List.replicate MAX_COLS .absent, buildLetterCount target)).2 none = .undef
    ∧ (∀ c, ((List.range n).foldl (firstPass guess target)
        (List.replicate MAX_COLS .absent, buildLetterCount target)).2 (some c)
          = if c ∈ target then
              .num ((target.count c : Int) - (matched guess target n c : Int))
            else .undef) := by
  induction n with
  | zero =>
    refine ⟨by simp [MAX_COLS], ?_, ?_, ?_⟩
    · intro j hj
      have hj2 : j < MAX_COLS := hj
      simp only [List.range_zero, List.foldl_nil]
      rw [List.getElem?_replicate_of_lt hj2]
      simp
    · simp [buildLetterCount_none]
    · intro c
      simp [buildLetterCount_some, matched]
  | succ n ih =>
    obtain ⟨h1, h2, h3, h4⟩ := ih (by omega)
    rw [List.range_succ, List.foldl_append]
    simp only [List.foldl_cons, List.foldl_nil]
    generalize (List.range n).foldl (firstPass guess target)
        (List.replicate MAX_COLS .absent, buildLetterCount target) = st at h1 h2 h3 h4 ⊢
    have hgn : guess[n]? = some (guess[n]) := List.getElem?_eq_getElem (by omega)
    have htn : target[n]? = some (target[n]) := List.getElem?_eq_getElem (by omega)
    unfold firstPass
    by_cases hm : guess[n]? = target[n]?
    · rw [if_pos hm]
      have hmem : guess[n] ∈ target := by
        have : target[n]? = some (guess[n]) := by rw [← hm, hgn]
        exact List.getElem?_mem this
      refine ⟨by simp [h1], ?_, ?_, ?_⟩
      · intro j hj
        simp only [List.getElem?_set]
        by_cases hjn : n = j
        · subst hjn
          simp [h1, hj, hm]
        · rw [if_neg hjn, h2 j hj]
          by_cases hlt : j < n
          · have : j < n + 1 := by omega
            simp [hlt, this]
          · have : ¬ j < n + 1 := by omega
            simp [hlt, this]
      · simp [setCount, hgn, h3]
      · intro c
        rw [matched_succ]
        by_cases hc : c = guess[n]
        · subst hc
          have htn2 : target[n]? = some (guess[n]) := by rw [← hm, hgn]
          simp only [setCount, hgn, if_true, h4, hmem, JSNum.dec, htn2, and_self]
          congr 1
          push_cast
          ring
        · have hne : ¬ guess[n] = c := fun e => hc e.symm
          simp [setCount, hgn, hc, hne, h4]
    · rw [if_neg hm]
      refine ⟨h1, ?_, h3, ?_⟩
      · intro j hj
        rw [h2 j hj]
        by_cases hjn : j = n
        · subst hjn
          simp [hm]
        · by_cases hlt : j < n
          · have : j < n + 1 := by omega
            simp [hlt, this]
          · have : ¬ j < n + 1 := by omega
            simp [hlt, this]
      · intro c
        rw [h4 c, matched_succ]
        have : ¬ (guess[n]? = some c ∧ target[n]? = some c) := by
          rintro ⟨a, b⟩
          exact hm (by rw [a, b])
        simp [this]

theorem matched_le_count_take (guess target : List Char) (n : Nat) (c : Char) :
    matched guess target n c ≤ (target.take n).count c := by
  induction n with
  | zero => simp [matched]
  | succ n ih =>
    rw [matched_succ, List.take_succ, List.count_append]
    by_cases h : guess[n]? = some c ∧ target[n]? = some c
    · rw [if_pos h]
      have : target[n]?.toList = [c] := by rw [h.2]; rfl
      rw [this]
      simp
      omega
    · rw [if_neg h]
      omega

theorem matched_le_count (guess target : List Char) (n : Nat) (c : Char) :
    matched guess target n c ≤ target.count c :=
  Nat.le_trans (matched_le_count_take guess target n c)
    ((List.take_sublist n target).count_le c)

theorem avail_nonneg (guess target : List Char) (c : Char) :
    0 ≤ avail guess target c := by
  unfold avail
  have := matched_le_count guess target MAX_COLS c
  omega

/-- State of `evaluateGuess` after the second loop has run over the indices below `n`,
started from the state the first loop leaves. -/
theorem secondPass_fold (guess target : List Char) (hg : guess.length = 5)
    (st1 : List Status × LetterCount)
    (h1 : st1.1.length = 5)
    (h2 : ∀ j, j < 5 →
      st1.1[j]? = some (if guess[j]? = target[j]? then Status.correct else Status.absent))
    (h3 : st1.2 none = .undef)
    (h4 : ∀ c, st1.2 (some c)
      = if c ∈ target then .num (avail guess target c) else .undef)
    (n : Nat) (hn : n ≤ 5) :
    ((List.range n).foldl (secondPass guess) st1).1.length = 5
    ∧ (∀ j, j < 5 →
        ((List.range n).foldl (secondPass guess) st1).1[j]?
          = some (if guess[j]? = target[j]? then Status.correct
                  else if j < n ∧ markedPresent guess target j = true then Status.present
                  else Status.absent))
    ∧ ((List.range n).foldl (secondPass guess) st1).2 none = .undef
    ∧ (∀ c, ((List.range n).foldl (secondPass guess) st1).2 (some c)
          = if c ∈ target then
              .num (max (avail guess target c - (misses guess target n c : Int)) 0)
            else .undef) := by
  induction n with
  | zero =>
    refine ⟨by simpa using h1, ?_, by simpa using h3, ?_⟩
    · intro j hj
      simp [h2 j hj]
    · intro c
      have hnn : 0 ≤ avail guess target c := avail_nonneg guess target c
      simp [h4 c, misses, hnn]
  | succ n ih =>
    obtain ⟨k1, k2, k3, k4⟩ := ih (by omega)
    rw [List.range_succ, List.foldl_append]
    simp only [List.foldl_cons, List.foldl_nil]
    generalize (List.range n).foldl (secondPass guess) st1 = st at k1 k2 k3 k4 ⊢
    obtain ⟨g, hgn⟩ : ∃ g, guess[n]? = some g :=
      ⟨guess[n], List.getElem?_eq_getElem (by omega)⟩
    have hn5 : n < 5 := by omega
    have hres := k2 n hn5
    simp only [Nat.lt_irrefl, false_and, if_false] at hres
    unfold secondPass
    by_cases hm : guess[n]? = target[n]?
    · -- exact match: the loop body does `continue`
      rw [if_pos hm] at hres
      rw [if_pos hres]
      refine ⟨k1, ?_, k3, ?_⟩
      · intro j hj
        rw [k2 j hj]
        by_cases hjn : j = n
        · subst hjn
          simp [hm]
        · by_cases hlt : j < n
          · have : j < n + 1 := by omega
            simp [hlt, this]
          · have : ¬ j < n + 1 := by omega
            simp [hlt, this]
      · intro c
        rw [k4 c, misses_succ]
        simp [hm]
    · rw [if_neg hm] at hres
      have hnc : ¬ st.1[n]? = some Status.correct := by rw [hres]; simp
      rw [if_neg hnc]
      have hlc := k4 g
      have hms : misses guess target (n + 1) g
          = misses guess target n g + 1 := by
        have hm2 : ¬ some g = target[n]? := by rw [← hgn]; exact hm
        rw [misses_succ]; simp [hm2, hgn]
      have hmo : ∀ c, c ≠ g →
          misses guess target (n + 1) c = misses guess target n c := by
        intro c hc
        have hne : ¬ g = c := fun e => hc e.symm
        rw [misses_succ]; simp [hgn, hne]
      by_cases hp : (st.2 guess[n]?).pos = true
      · rw [if_pos hp]
        rw [hgn, hlc] at hp
        have hmem : g ∈ target := by
          by_contra hcon
          simp [hcon, JSNum.pos] at hp
        simp only [hmem, if_true, JSNum.pos, decide_eq_true_eq] at hp
        have hlt : (misses guess target n g : Int) < avail guess target g := by
          omega
        have hmp : markedPresent guess target n = true := by
          simp [markedPresent, hgn, hlt]
        refine ⟨by simp [k1], ?_, ?_, ?_⟩
        · intro j hj
          simp only [List.getElem?_set]
          by_cases hjn : n = j
          · subst hjn
            simp [k1, hj, hm, hmp]
          · rw [if_neg hjn, k2 j hj]
            by_cases hlt2 : j < n
            · have : j < n + 1 := by omega
              simp [hlt2, this]
            · have : ¬ j < n + 1 := by omega
              simp [hlt2, this]
        · simp [setCount, hgn, k3]
        · intro c
          by_cases hc : c = g
          · subst hc
            simp only [setCount, hgn, if_true, hlc, hmem, JSNum.dec, hms]
            congr 1
            push_cast
            omega
          · have hne : ¬ g = c := fun e => hc e.symm
            simp [setCount, hgn, hc, hne, k4, hmo c hc]
      · rw [if_neg hp]
        rw [hgn, hlc] at hp
        have hge : avail guess target g ≤ (misses guess target n g : Int) := by
          by_cases hmem : g ∈ target
          · simp only [hmem, if_true, JSNum.pos, decide_eq_true_eq] at hp
            omega
          · have h0 : target.count g = 0 := List.count_eq_zero_of_not_mem hmem
            unfold avail
            omega
        have hmp : markedPresent guess target n = false := by
          simp [markedPresent, hgn, hge]
        refine ⟨k1, ?_, k3, ?_⟩
        · intro j hj
          rw [k2 j hj]
          by_cases hjn : j = n
          · subst hjn
            simp [hm, hmp]
          · by_cases hlt2 : j < n
            · have : j < n + 1 := by omega
              simp [hlt2, this]
            · have : ¬ j < n + 1 := by omega
              simp [hlt2, this]
        · intro c
          rw [k4 c]
          by_cases hc : c = g
          · subst hc
            rw [hms]
            by_cases hmem : c ∈ target
            · simp only [hmem, if_true]
              congr 1
              push_cast
              omega
            · simp [hmem]
          · rw [hmo c hc]

/-- What `evaluateGuess` returns on two 5-letter words, index by index. -/
theorem evaluateGuess_getElem? (guess target : List Char) (hg : guess.length = 5)
    (ht : target.length = 5) :
    (evaluateGuess guess target).length = 5
    ∧ ∀ j, j < 5 →
        (evaluateGuess guess target)[j]?
          = some (if guess[j]? = target[j]? then Status.correct
                  else if markedPresent guess target j = true then Status.present
                  else Status.absent) := by
  obtain ⟨h1, h2, h3, h4⟩ := firstPass_fold guess target hg ht 5 (Nat.le_refl 5)
  have h2b : ∀ j, j < 5 →
      ((List.range 5).foldl (firstPass guess target)
        (List.replicate MAX_COLS .absent, buildLetterCount target)).1[j]?
        = some (if guess[j]? = target[j]? then Status.correct else Status.absent) := by
    intro j hj
    rw [h2 j hj]
    simp [hj]
  obtain ⟨k1, k2, -, -⟩ :=
    secondPass_fold guess target hg _ h1 h2b h3 h4 5 (Nat.le_refl 5)
  refine ⟨k1, ?_⟩
  intro j hj
  have := k2 j hj
  simp only [hj, true_and] at this
  exact this

theorem eq_of_getElem?_five (l m : List Status) (hl : l.length = 5) (hm : m.length = 5)
    (h : ∀ j, j < 5 → l[j]? = m[j]?) : l = m := by
  apply List.ext_getElem?
  intro j
  by_cases hj : j < 5
  · exact h j hj
  · rw [List.getElem?_eq_none (by omega), List.getElem?_eq_none (by omega)]

theorem marks_succ (guess : List Char) (res : List Status) (n : Nat) (c : Char) :
    marks guess res (n + 1) c
      = marks guess res n c
        + (if guess[n]? = some c
            ∧ (res[n]? = some Status.correct ∨ res[n]? = some Status.present)
           then 1 else 0) := by
  unfold marks
  rw [filter_range_succ_length]
  simp

/-- The marks handed out for a letter up to index `n` are paid for by exact
matches and by the budget `avail`. -/
theorem marks_le_budget (guess target : List Char) (hg : guess.length = 5)
    (ht : target.length = 5) (c : Char) (n : Nat) (hn : n ≤ 5) :
    (marks guess (evaluateGuess guess target) n c : Int)
      ≤ (matched guess target n c : Int)
        + min (misses guess target n c : Int) (avail guess target c) := by
  induction n with
  | zero =>
    have := avail_nonneg guess target c
    simp [marks, matched, misses, this]
  | succ n ih =>
    have ih2 := ih (by omega)
    have hev := (evaluateGuess_getElem? guess target hg ht).2 n (by omega)
    rw [marks_succ, matched_succ, misses_succ]
    by_cases hc : guess[n]? = some c
    · by_cases hm : guess[n]? = target[n]?
      · have htc : target[n]? = some c := by rw [← hm, hc]
        simp only [hc, htc, and_self, if_true, true_and, ne_eq, not_true_eq_false,
          false_and, if_false]
        split <;> push_cast <;> omega
      · have hm2 : ¬ some c = target[n]? := by rw [← hc]; exact hm
        have htc : ¬ target[n]? = some c := fun e => hm2 e.symm
        rw [if_neg hm] at hev
        by_cases hp : markedPresent guess target n = true
        · have hlt : (misses guess target n c : Int) < avail guess target c := by
            simpa [markedPresent, hc] using hp
          simp only [hc, htc, hm2, and_false, if_false, true_and, ne_eq, not_false_eq_true,
            and_self, if_true]
          split <;> push_cast <;> omega
        · rw [if_neg hp] at hev
          simp only [hc, htc, hm2, hev, and_false, if_false, true_and, ne_eq,
            not_false_eq_true, and_self, if_true]
          simp
          omega
    · simp only [hc, false_and, and_false, if_false]
      omega

/-- C1: for 5-letter `guess` and `target` and every letter `c`, the number of
positions `i` with `guess[i] = c` whose status in `evaluateGuess guess target` is
`correct` or `present` is at most the number of occurrences of `c` in `target`. -/
theorem evaluateGuess_marks_le_count (guess target : List Char)
    (hg : guess.length = 5) (ht : target.length = 5) (c : Char) :
    marks guess (evaluateGuess guess target) MAX_COLS c ≤ target.count c := by
  have h := marks_le_budget guess target hg ht c 5 (Nat.le_refl 5)
  have hm : matched guess target 5 c = matched guess target MAX_COLS c := rfl
  have hk : marks guess (evaluateGuess guess target) MAX_COLS c
      = marks guess (evaluateGuess guess target) 5 c := rfl
  rw [hk]
  unfold avail at h
  rw [← hm] at h
  omega

theorem evaluateGuess_marks_le_count_witness :
    marks ['L', 'L', 'A', 'L', 'L']
      (evaluateGuess ['L', 'L', 'A', 'L', 'L'] ['A', 'L', 'L', 'E', 'Y']) MAX_COLS 'L'
      ≤ ['A', 'L', 'L', 'E', 'Y'].count 'L' :=
  evaluateGuess_marks_le_count ['L', 'L', 'A', 'L', 'L'] ['A', 'L', 'L', 'E', 'Y']
    (by decide) (by decide) 'L'

/-- C2 (as stated, refuted): `evaluateGuess("ALERT", "APPLE")` is not
`[correct, absent, absent, present, absent]`. -/
theorem evaluateGuess_ALERT_APPLE_ne :
    evaluateGuess ['A', 'L', 'E', 'R', 'T'] ['A', 'P', 'P', 'L', 'E']
      ≠ [.correct, .absent, .absent, .present, .absent] := by
  decide

/-- C2 (amended): `evaluateGuess("ALERT", "APPLE")` returns
`[correct, present, present, absent, absent]`: `A` matches in place, `L` and `E`
occur elsewhere in the target, `R` and `T` do not occur. -/
theorem evaluateGuess_ALERT_APPLE :
    evaluateGuess ['A', 'L', 'E', 'R', 'T'] ['A', 'P', 'P', 'L', 'E']
      = [.correct, .present, .present, .absent, .absent] := by
  decide

/-- C7: for every 5-letter word `w`, `evaluateGuess w w` is five times `correct`. -/
theorem evaluateGuess_self (w : List Char) (hw : w.length = 5) :
    evaluateGuess w w
      = [Status.correct, Status.correct, Status.correct, Status.correct, Status.correct] := by
  obtain ⟨hl, hj⟩ := evaluateGuess_getElem? w w hw hw
  refine eq_of_getElem?_five (evaluateGuess w w)
    [Status.correct, Status.correct, Status.correct, Status.correct, Status.correct]
    hl (by rfl) ?_
  intro j hj5
  rw [hj j hj5]
  have : j = 0 ∨ j = 1 ∨ j = 2 ∨ j = 3 ∨ j = 4 := by omega
  rcases this with h | h | h | h | h <;> subst h <;> simp

theorem evaluateGuess_self_witness :
    evaluateGuess ['C', 'R', 'A', 'N', 'E'] ['C', 'R', 'A', 'N', 'E']
      = [Status.correct, Status.correct, Status.correct, Status.correct, Status.correct] :=
  evaluateGuess_self ['C', 'R', 'A', 'N', 'E'] (by decide)

/-- C8: for 5-letter `guess` and `target` with no letter of `guess` occurring in
`target`, `evaluateGuess guess target` is five times `absent`. -/
theorem evaluateGuess_disjoint (guess target : List Char)
    (hg : guess.length = 5) (ht : target.length = 5)
    (hd : ∀ c, c ∈ guess → c ∉ target) :
    evaluateGuess guess target
      = [Status.absent, Status.absent, Status.absent, Status.absent, Status.absent] := by
  obtain ⟨hl, hj⟩ := evaluateGuess_getElem? guess target hg ht
  refine eq_of_getElem?_five (evaluateGuess guess target)
    [Status.absent, Status.absent, Status.absent, Status.absent, Status.absent]
    hl (by rfl) ?_
  intro j hj5
  rw [hj j hj5]
  have hjg : j < guess.length := by omega
  obtain ⟨g, hgj⟩ : ∃ g, guess[j]? = some g := ⟨guess[j], List.getElem?_eq_getElem hjg⟩
  have hnot : g ∉ target := hd g (List.getElem?_mem hgj)
  have hne : ¬ guess[j]? = target[j]? := by
    intro e
    rw [hgj] at e
    exact hnot (List.getElem?_mem e.symm)
  have hmp : markedPresent guess target j = false := by
    have h0 : target.count g = 0 := List.count_eq_zero_of_not_mem hnot
    simp only [markedPresent, hgj, avail, h0]
    simp
    omega
  rw [if_neg hne, hmp]
  have : j = 0 ∨ j = 1 ∨ j = 2 ∨ j = 3 ∨ j = 4 := by omega
  rcases this with h | h | h | h | h <;> subst h <;> simp

theorem evaluateGuess_disjoint_witness :
    evaluateGuess ['M', 'O', 'U', 'N', 'T'] ['A', 'P', 'P', 'L', 'E']
      = [Status.absent, Status.absent, Status.absent, Status.absent, Status.absent] :=
  evaluateGuess_disjoint ['M', 'O', 'U', 'N', 'T'] ['A', 'P', 'P', 'L', 'E']
    (by decide) (by decide) (by decide)

/-- C10: for 5-letter `guess` and `target` and a position `i` holding the letter
`c`, the status at `i` is `correct` iff `guess[i] = target[i]`; and where
`guess[i] ≠ target[i]` it is `present` iff the number of earlier non-matching
positions holding `c` is smaller than the occurrences of `c` in `target` minus the
number of positions where both words hold `c`, and `absent` otherwise. -/
theorem evaluateGuess_status_iff (guess target : List Char)
    (hg : guess.length = 5) (ht : target.length = 5)
    (i : Nat) (hi : i < 5) (c : Char) (hc : guess[i]? = some c) :
    ((evaluateGuess guess target)[i]? = some Status.correct ↔ guess[i]? = target[i]?)
    ∧ (guess[i]? ≠ target[i]? →
        ((evaluateGuess guess target)[i]? = some Status.present
          ↔ misses guess target i c
              < target.count c - matched guess target MAX_COLS c)
        ∧ ((evaluateGuess guess target)[i]? = some Status.absent
          ↔ ¬ misses guess target i c
              < target.count c - matched guess target MAX_COLS c)) := by
  have hev := (evaluateGuess_getElem? guess target hg ht).2 i hi
  have hmp : markedPresent guess target i = true
      ↔ misses guess target i c < target.count c - matched guess target MAX_COLS c := by
    simp only [markedPresent, hc, avail, decide_eq_true_eq]
    omega
  rw [hev]
  constructor
  · by_cases hm : guess[i]? = target[i]?
    · simp [hm]
    · simp only [hm, if_false, iff_false]
      split <;> simp
  · intro hm
    rw [if_neg hm]
    by_cases hp : markedPresent guess target i = true
    · have := hmp.1 hp
      simp [hp, this]
    · have hn : ¬ misses guess target i c
          < target.count c - matched guess target MAX_COLS c := fun h => hp (hmp.2 h)
      simp [hp, hn]

theorem evaluateGuess_status_iff_witness :
    ((evaluateGuess ['L', 'L', 'A', 'L', 'L'] ['A', 'L', 'L', 'E', 'Y'])[3]?
        = some Status.correct
      ↔ ['L', 'L', 'A', 'L', 'L'][3]? = ['A', 'L', 'L', 'E', 'Y'][3]?)
    ∧ (['L', 'L', 'A', 'L', 'L'][3]? ≠ ['A', 'L', 'L', 'E', 'Y'][3]? →
        ((evaluateGuess ['L', 'L', 'A', 'L', 'L'] ['A', 'L', 'L', 'E', 'Y'])[3]?
            = some Status.present
          ↔ misses ['L', 'L', 'A', 'L', 'L'] ['A', 'L', 'L', 'E', 'Y'] 3 'L'
              < ['A', 'L', 'L', 'E', 'Y'].count 'L'
                - matched ['L', 'L', 'A', 'L', 'L'] ['A', 'L', 'L', 'E', 'Y'] MAX_COLS 'L')
        ∧ ((evaluateGuess ['L', 'L', 'A', 'L', 'L'] ['A', 'L', 'L', 'E', 'Y'])[3]?
            = some Status.absent
          ↔ ¬ misses ['L', 'L', 'A', 'L', 'L'] ['A', 'L', 'L', 'E', 'Y'] 3 'L'
              < ['A', 'L', 'L', 'E', 'Y'].count 'L'
                - matched ['L', 'L', 'A', 'L', 'L'] ['A', 'L', 'L', 'E', 'Y'] MAX_COLS 'L')) :=
  evaluateGuess_status_iff ['L', 'L', 'A', 'L', 'L'] ['A', 'L', 'L', 'E', 'Y']
    (by decide) (by decide) 3 (by decide) 'L' (by decide)

/-! ### Keyboard -/

/-- The table `priority` of the code orders the statuses as the specification does. -/
theorem priority_ge_iff (current st : Status) :
    priority current ≥ priority st
      ↔ statusRank (some st) ≤ statusRank (some current) := by
  cases current <;> cases st <;> decide

theorem statusRank_some_pos (st : Status) : 0 < statusRank (some st) := by
  cases st <;> decide

theorem statusRank_injective (a b : Option Status) (h : statusRank a = statusRank b) :
    a = b := by
  cases a with
  | none =>
    cases b with
    | none => rfl
    | some y => cases y <;> exact absurd h (by decide)
  | some x =>
    cases b with
    | none => cases x <;> exact absurd h (by decide)
    | some y => cases x <;> cases y <;> first | rfl | exact absurd h (by decide)

/-- Every capital letter `A`..`Z` has a key element. -/
theorem hasKey_of_capital (letter : Char) (hA : 'A' ≤ letter) (hZ : letter ≤ 'Z') :
    hasKey letter = true := by
  have h1 : 65 ≤ letter.toNat := by
    have := Char.le_def.1 hA
    exact this
  have h2 : letter.toNat ≤ 90 := by
    have := Char.le_def.1 hZ
    exact this
  rw [← Char.ofNat_toNat letter]
  generalize letter.toNat = n at h1 h2
  interval_cases n <;> decide

/-- What `updateKeyboardKey` stores for a letter that has a key: the maximum of the
stored and the new status. -/
theorem updateKeyboardKey_self (ks : KeyStatus) (letter : Char) (status : Status)
    (hk : hasKey letter = true) :
    updateKeyboardKey ks (some letter) (some status) letter
      = statusMax (ks letter) (some status) := by
  unfold updateKeyboardKey statusMax
  simp only [hk, Bool.true_eq_false, if_false]
  cases hcur : ks letter with
  | none =>
    have h0 : statusRank none ≤ statusRank (some status) := Nat.zero_le _
    simp [setKey, h0]
  | some cur =>
    simp only
    by_cases hp : priority cur ≥ priority status
    · rw [if_pos hp, hcur]
      have hle := (priority_ge_iff cur status).1 hp
      by_cases hle2 : statusRank (some cur) ≤ statusRank (some status)
      · rw [if_pos hle2]
        exact statusRank_injective _ _ (Nat.le_antisymm hle2 hle)
      · rw [if_neg hle2]
    · rw [if_neg hp]
      have hlt : ¬ statusRank (some status) ≤ statusRank (some cur) :=
        fun h => hp ((priority_ge_iff cur status).2 h)
      have hle2 : statusRank (some cur) ≤ statusRank (some status) := by omega
      rw [if_pos hle2]
      simp [setKey]

theorem updateKeyboardKey_other (ks : KeyStatus) (letter : Char) (status : Status)
    (l : Char) (hl : l ≠ letter) :
    updateKeyboardKey ks (some letter) (some status) l = ks l := by
  unfold updateKeyboardKey
  simp only
  by_cases hk : hasKey letter = false
  · rw [if_pos hk]
  · rw [if_neg hk]
    cases hcur : ks letter with
    | none => simp [setKey, hl]
    | some cur =>
      simp only
      by_cases hp : priority cur ≥ priority status
      · rw [if_pos hp]
      · rw [if_neg hp]
        simp [setKey, hl]

theorem statusRank_le_statusMax (a b : Option Status) :
    statusRank a ≤ statusRank (statusMax a b) := by
  unfold statusMax
  by_cases h : statusRank a ≤ statusRank b
  · rw [if_pos h]
    exact h
  · rw [if_neg h]

theorem updateKeyboardKey_mono (ks : KeyStatus) (letter : Option Char) (status : Status)
    (l : Char) :
    statusRank (ks l) ≤ statusRank (updateKeyboardKey ks letter (some status) l) := by
  cases letter with
  | none => exact Nat.le_refl _
  | some a =>
    by_cases hl : l = a
    · subst hl
      by_cases hk : hasKey l = true
      · rw [updateKeyboardKey_self ks l status hk]
        exact statusRank_le_statusMax _ _
      · have hk2 : hasKey l = false := by simpa using hk
        unfold updateKeyboardKey
        simp only [hk2, if_true]
        exact Nat.le_refl _
    · rw [updateKeyboardKey_other ks a status l hl]

theorem updateKeyboard_fold_mono (guess : List Char) (evaluation : List Status)
    (he : evaluation.length = MAX_COLS) (l : Char) (n : Nat) (hn : n ≤ MAX_COLS)
    (ks : KeyStatus) :
    statusRank (ks l)
      ≤ statusRank (((List.range n).foldl
          (fun ks i => updateKeyboardKey ks guess[i]? evaluation[i]?) ks) l) := by
  induction n with
  | zero => simp
  | succ n ih =>
    rw [List.range_succ, List.foldl_append]
    simp only [List.foldl_cons, List.foldl_nil]
    have hlt : n < evaluation.length := by omega
    rw [List.getElem?_eq_getElem hlt]
    exact Nat.le_trans (ih (by omega)) (updateKeyboardKey_mono _ _ _ l)

theorem updateKeyboard_mono (ks : KeyStatus) (guess : List Char) (evaluation : List Status)
    (he : evaluation.length = MAX_COLS) (l : Char) :
    statusRank (ks l) ≤ statusRank (updateKeyboard ks guess evaluation l) :=
  updateKeyboard_fold_mono guess evaluation he l MAX_COLS (Nat.le_refl _) ks

theorem updateKeyboard_calls_mono (calls : List (List Char × List Status))
    (hcalls : ∀ call, call ∈ calls → call.2.length = MAX_COLS) (l : Char) (ks : KeyStatus) :
    statusRank (ks l)
      ≤ statusRank ((calls.foldl (fun k call => updateKeyboard k call.1 call.2) ks) l) := by
  induction calls generalizing ks with
  | nil => simp
  | cons call rest ih =>
    rw [List.foldl_cons]
    exact Nat.le_trans
      (updateKeyboard_mono ks call.1 call.2 (hcalls call (List.mem_cons_self _ _)) l)
      (ih (fun c hc => hcalls c (List.mem_cons_of_mem _ hc)) _)

/-- C5: in the order unmarked < absent < present < correct (spelled out in the first
conjunct), for every keyboard status map `ks`, every letter `A`..`Z` and every new
status, `updateKeyboardKey` leaves the letter's stored status equal to the maximum
of its previous status and the new status; and over any sequence of `updateKeyboard`
calls (each with a 5-status evaluation) the status of any letter `l` never
decreases in that order. -/
theorem updateKeyboardKey_max (ks : KeyStatus) (letter : Char) (status : Status)
    (hA : 'A' ≤ letter) (hZ : letter ≤ 'Z')
    (calls : List (List Char × List Status))
    (hcalls : ∀ call, call ∈ calls → call.2.length = MAX_COLS) (l : Char) :
    (statusRank none < statusRank (some Status.absent)
      ∧ statusRank (some Status.absent) < statusRank (some Status.present)
      ∧ statusRank (some Status.present) < statusRank (some Status.correct))
    ∧ updateKeyboardKey ks (some letter) (some status) letter
        = statusMax (ks letter) (some status)
    ∧ statusRank (updateKeyboardKey ks (some letter) (some status) letter)
        = max (statusRank (ks letter)) (statusRank (some status))
    ∧ statusRank (ks l)
        ≤ statusRank
            ((calls.foldl (fun k call => updateKeyboard k call.1 call.2) ks) l) := by
  have hk := hasKey_of_capital letter hA hZ
  refine ⟨by decide, updateKeyboardKey_self ks letter status hk, ?_,
    updateKeyboard_calls_mono calls hcalls l ks⟩
  rw [updateKeyboardKey_self ks letter status hk]
  unfold statusMax
  by_cases h : statusRank (ks letter) ≤ statusRank (some status)
  · rw [if_pos h]
    omega
  · rw [if_neg h]
    omega

theorem updateKeyboardKey_max_witness :
    (statusRank none < statusRank (some Status.absent)
      ∧ statusRank (some Status.absent) < statusRank (some Status.present)
      ∧ statusRank (some Status.present) < statusRank (some Status.correct))
    ∧ updateKeyboardKey (fun _ => some Status.correct) (some 'L')
        (some Status.absent) 'L'
        = statusMax ((fun _ => some Status.correct : KeyStatus) 'L') (some Status.absent)
    ∧ statusRank (updateKeyboardKey (fun _ => some Status.correct) (some 'L')
        (some Status.absent) 'L')
        = max (statusRank ((fun _ => some Status.correct : KeyStatus) 'L'))
            (statusRank (some Status.absent))
    ∧ statusRank ((fun _ => some Status.correct : KeyStatus) 'L')
        ≤ statusRank (([(['A', 'L', 'E', 'R', 'T'],
              evaluateGuess ['A', 'L', 'E', 'R', 'T'] ['A', 'P', 'P', 'L', 'E'])].foldl
            (fun k call => updateKeyboard k call.1 call.2)
            (fun _ => some Status.correct)) 'L') :=
  updateKeyboardKey_max (fun _ => some Status.correct) 'L' Status.absent
    (by decide) (by decide)
    [(['A', 'L', 'E', 'R', 'T'],
      evaluateGuess ['A', 'L', 'E', 'R', 'T'] ['A', 'P', 'P', 'L', 'E'])]
    (by decide) 'L'

/-! ### Submissions -/

theorem getCurrentGuess_short (s : State) (h : s.currentCol < MAX_COLS) :
    getCurrentGuess s = some [] := by
  unfold getCurrentGuess
  rw [if_pos h]

/-- C6: a `submitGuess` on a row holding fewer than 5 letters ends in
`notEnoughLetters` with the state unchanged; a `submitGuess` the dictionary answers
false to changes nothing and neither wins, loses nor advances; and whenever
`submitGuess` ends in `notEnoughLetters` or `invalidWord`, the state (row index,
column index, tile letters, keyboard status map) is the one it started from. -/
theorem submitGuess_rejected (s : State) (isRealWord : Bool) :
    (s.currentCol < MAX_COLS → submitGuess s isRealWord = (s, Outcome.notEnoughLetters))
    ∧ ((submitGuess s false).1 = s
        ∧ (submitGuess s false).2 ≠ Outcome.win
        ∧ (submitGuess s false).2 ≠ Outcome.lose
        ∧ (submitGuess s false).2 ≠ Outcome.advanced)
    ∧ ((submitGuess s isRealWord).2 = Outcome.notEnoughLetters
        ∨ (submitGuess s isRealWord).2 = Outcome.invalidWord
        → (submitGuess s isRealWord).1 = s) := by
  refine ⟨?_, ?_, ?_⟩
  · intro h
    unfold submitGuess
    rw [getCurrentGuess_short s h]
    simp [MAX_COLS]
  · unfold submitGuess
    cases getCurrentGuess s with
    | none => simp
    | some guess =>
      simp only
      by_cases hl : guess.length < MAX_COLS
      · simp [hl]
      · simp [hl, isValidGuess]
  · unfold submitGuess
    cases getCurrentGuess s with
    | none => simp
    | some guess =>
      simp only
      by_cases hl : guess.length < MAX_COLS
      · simp [hl]
      · rw [if_neg hl]
        by_cases hv : isValidGuess isRealWord guess = false
        · simp [hv]
        · rw [if_neg hv]
          by_cases hr : s.currentRow ≥ MAX_ROWS
          · simp [hr]
          · rw [if_neg hr]
            split_ifs <;> simp

theorem submitGuess_rejected_witness :
    (initGame ['A', 'P', 'P', 'L', 'E']).currentCol < MAX_COLS
    ∧ submitGuess (initGame ['A', 'P', 'P', 'L', 'E']) true
        = (initGame ['A', 'P', 'P', 'L', 'E'], Outcome.notEnoughLetters) :=
  ⟨by decide, (submitGuess_rejected (initGame ['A', 'P', 'P', 'L', 'E']) true).1 (by decide)⟩

/-! ### Bounds on the row and column indices -/

theorem insertLetter_bounds (s : State) (letter : Char)
    (h : s.currentRow ≤ MAX_ROWS ∧ s.currentCol ≤ MAX_COLS) :
    (insertLetter s letter).currentRow ≤ MAX_ROWS
      ∧ (insertLetter s letter).currentCol ≤ MAX_COLS := by
  unfold insertLetter insertLetterIndex
  by_cases hg : s.currentCol ≥ MAX_COLS ∨ s.currentRow ≥ MAX_ROWS
  · rw [if_pos hg]
    exact h
  · rw [if_neg hg]
    simp only
    split
    · simp only
      omega
    · exact h

theorem deleteLetter_bounds (s : State)
    (h : s.currentRow ≤ MAX_ROWS ∧ s.currentCol ≤ MAX_COLS) :
    (deleteLetter s).currentRow ≤ MAX_ROWS
      ∧ (deleteLetter s).currentCol ≤ MAX_COLS := by
  unfold deleteLetter deleteLetterIndex
  by_cases hg : s.currentCol = 0 ∨ s.currentRow ≥ MAX_ROWS
  · rw [if_pos hg]
    exact h
  · rw [if_neg hg]
    simp only
    split <;> simp only <;> omega

theorem submitGuess_bounds (s : State) (isRealWord : Bool)
    (h : s.currentRow ≤ MAX_ROWS ∧ s.currentCol ≤ MAX_COLS) :
    (submitGuess s isRealWord).1.currentRow ≤ MAX_ROWS
      ∧ (submitGuess s isRealWord).1.currentCol ≤ MAX_COLS := by
  unfold submitGuess
  cases getCurrentGuess s with
  | none => exact h
  | some guess =>
    simp only
    split_ifs with h1 h2 h3 h4 h5
    · exact h
    · exact h
    · exact h
    · exact h
    · simp only [advanceRow]
      omega
    · simp only [advanceRow]
      omega

theorem step_bounds (s : State) (i : Input)
    (h : s.currentRow ≤ MAX_ROWS ∧ s.currentCol ≤ MAX_COLS) :
    (step s i).1.currentRow ≤ MAX_ROWS ∧ (step s i).1.currentCol ≤ MAX_COLS := by
  cases i with
  | insert letter => exact insertLetter_bounds s letter h
  | delete => exact deleteLetter_bounds s h
  | submit isRealWord => exact submitGuess_bounds s isRealWord h

theorem run_bounds (inputs : List Input) (s : State)
    (h : s.currentRow ≤ MAX_ROWS ∧ s.currentCol ≤ MAX_COLS) :
    (run s inputs).1.currentRow ≤ MAX_ROWS ∧ (run s inputs).1.currentCol ≤ MAX_COLS := by
  induction inputs generalizing s with
  | nil => exact h
  | cons i rest ih => exact ih (step s i).1 (step_bounds s i h)

/-- C9: in every state reached from `initGame` by a sequence of insertLetter,
deleteLetter and submitGuess steps (any dictionary answers), the row index is at
most 6, the column index at most 5, and the tile index `insertLetter` or
`deleteLetter` would write to lies below 30. -/
theorem reachable_bounds (targetWord : List Char) (inputs : List Input) :
    (run (initGame targetWord) inputs).1.currentRow ≤ 6
    ∧ (run (initGame targetWord) inputs).1.currentCol ≤ 5
    ∧ (∀ tileIndex,
        insertLetterIndex (run (initGame targetWord) inputs).1 = some tileIndex →
        tileIndex < 30)
    ∧ (∀ tileIndex,
        deleteLetterIndex (run (initGame targetWord) inputs).1 = some tileIndex →
        tileIndex < 30) := by
  have h := run_bounds inputs (initGame targetWord) (by simp [initGame])
  generalize (run (initGame targetWord) inputs).1 = s at h ⊢
  have hr : s.currentRow ≤ 6 := h.1
  have hc : s.currentCol ≤ 5 := h.2
  refine ⟨hr, hc, ?_, ?_⟩
  · intro tileIndex hi
    unfold insertLetterIndex at hi
    simp only [MAX_COLS, MAX_ROWS] at hi
    split at hi
    · exact absurd hi (by simp)
    · simp only [Option.some.injEq] at hi
      omega
  · intro tileIndex hi
    unfold deleteLetterIndex at hi
    simp only [MAX_COLS, MAX_ROWS] at hi
    split at hi
    · exact absurd hi (by simp)
    · simp only [Option.some.injEq] at hi
      omega

theorem reachable_bounds_witness :
    insertLetterIndex
        (run (initGame ['A', 'P', 'P', 'L', 'E']) [Input.insert 'A', Input.insert 'L']).1
      = some 2
    ∧ 2 < 30 :=
  ⟨by decide,
    (reachable_bounds ['A', 'P', 'P', 'L', 'E']
      [Input.insert 'A', Input.insert 'L']).2.2.1 2 (by decide)⟩

/-! ### Six rounds -/

theorem run_append (a b : List Input) (s : State) :
    run s (a ++ b)
      = ((run (run s a).1 b).1, (run s a).2 ++ (run (run s a).1 b).2) := by
  induction a generalizing s with
  | nil => simp [run]
  | cons i rest ih =>
    have h : run s (i :: rest ++ b)
        = ((run (step s i).1 (rest ++ b)).1,
            (step s i).2 ++ (run (step s i).1 (rest ++ b)).2) := rfl
    rw [h, ih]
    simp [run]

theorem insertLetter_eq (s : State) (letter : Char) (hr : s.currentRow < MAX_ROWS)
    (hc : s.currentCol < MAX_COLS) :
    insertLetter s letter
      = { s with tiles := setTile s.tiles (s.currentRow * MAX_COLS + s.currentCol) [letter]
                 currentCol := s.currentCol + 1 } := by
  unfold insertLetter insertLetterIndex
  have hg : ¬ (s.currentCol ≥ MAX_COLS ∨ s.currentRow ≥ MAX_ROWS) := by omega
  rw [if_neg hg]
  simp only
  have hi : s.currentRow * MAX_COLS + s.currentCol < MAX_ROWS * MAX_COLS := by
    simp only [MAX_ROWS, MAX_COLS] at hr hc ⊢
    omega
  rw [if_pos hi]

theorem range_MAX_COLS : List.range MAX_COLS = [0, 1, 2, 3, 4] := by decide

theorem submitGuess_miss (s : State) (guess : List Char)
    (hgc : getCurrentGuess s = some guess) (hl : guess.length = 5)
    (hne : guess ≠ s.targetWord) (hr : s.currentRow < MAX_ROWS) :
    (submitGuess s true).2 = missOutcome s.currentRow
    ∧ (submitGuess s true).1.currentRow = s.currentRow + 1
    ∧ (submitGuess s true).1.currentCol = 0
    ∧ (submitGuess s true).1.targetWord = s.targetWord := by
  unfold submitGuess
  rw [hgc]
  have h1 : ¬ guess.length < MAX_COLS := by rw [hl]; decide
  have h2 : ¬ isValidGuess true guess = false := by simp [isValidGuess, hl, MAX_COLS]
  have h3 : ¬ s.currentRow ≥ MAX_ROWS := by omega
  simp only [h1, h2, h3, if_false, isWinningGuess, hne, decide_False, Bool.false_eq_true,
    advanceRow, missOutcome]
  by_cases h6 : s.currentRow + 1 = MAX_ROWS
  · simp [h6]
  · simp [h6]

theorem getCurrentGuess_filled (s : State) (a b c d e : Char)
    (hr : s.currentRow < MAX_ROWS) (hc : s.currentCol = 5)
    (h0 : s.tiles (s.currentRow * MAX_COLS + 0) = [a])
    (h1 : s.tiles (s.currentRow * MAX_COLS + 1) = [b])
    (h2 : s.tiles (s.currentRow * MAX_COLS + 2) = [c])
    (h3 : s.tiles (s.currentRow * MAX_COLS + 3) = [d])
    (h4 : s.tiles (s.currentRow * MAX_COLS + 4) = [e]) :
    getCurrentGuess s = some [a, b, c, d, e] := by
  unfold getCurrentGuess
  have hcol : ¬ s.currentCol < MAX_COLS := by rw [hc]; decide
  rw [if_neg hcol, range_MAX_COLS]
  have hr6 : s.currentRow < 6 := hr
  have i0 : s.currentRow * MAX_COLS + 0 < MAX_ROWS * MAX_COLS := by
    simp only [MAX_ROWS, MAX_COLS]; omega
  have i1 : s.currentRow * MAX_COLS + 1 < MAX_ROWS * MAX_COLS := by
    simp only [MAX_ROWS, MAX_COLS]; omega
  have i2 : s.currentRow * MAX_COLS + 2 < MAX_ROWS * MAX_COLS := by
    simp only [MAX_ROWS, MAX_COLS]; omega
  have i3 : s.currentRow * MAX_COLS + 3 < MAX_ROWS * MAX_COLS := by
    simp only [MAX_ROWS, MAX_COLS]; omega
  have i4 : s.currentRow * MAX_COLS + 4 < MAX_ROWS * MAX_COLS := by
    simp only [MAX_ROWS, MAX_COLS]; omega
  simp only [List.foldl_cons, List.foldl_nil, i0, i1, i2, i3, i4, if_true, h0, h1, h2, h3, h4]
  rfl

/-- Typing a 5-letter word that is not the target on an empty row below the sixth
and submitting it moves to the next row. -/
theorem run_typeAndSubmit (s : State) (guess : List Char) (hg : guess.length = 5)
    (hne : guess ≠ s.targetWord) (hr : s.currentRow < MAX_ROWS) (hc : s.currentCol = 0) :
    (run s (typeAndSubmit guess)).2 = [missOutcome s.currentRow]
    ∧ (run s (typeAndSubmit guess)).1.currentRow = s.currentRow + 1
    ∧ (run s (typeAndSubmit guess)).1.currentCol = 0
    ∧ (run s (typeAndSubmit guess)).1.targetWord = s.targetWord := by
  match guess, hg with
  | [a, b, c, d, e], _ =>
    have hrun : run s (typeAndSubmit [a, b, c, d, e])
        = ((submitGuess
              (insertLetter (insertLetter (insertLetter (insertLetter (insertLetter s a) b) c) d) e)
              true).1,
           [(submitGuess
              (insertLetter (insertLetter (insertLetter (insertLetter (insertLetter s a) b) c) d) e)
              true).2]) := rfl
    have hfill :
        insertLetter (insertLetter (insertLetter (insertLetter (insertLetter s a) b) c) d) e
          = { s with
              tiles := setTile (setTile (setTile (setTile (setTile s.tiles
                  (s.currentRow * MAX_COLS + 0) [a])
                  (s.currentRow * MAX_COLS + 1) [b])
                  (s.currentRow * MAX_COLS + 2) [c])
                  (s.currentRow * MAX_COLS + 3) [d])
                  (s.currentRow * MAX_COLS + 4) [e]
              currentCol := 5 } := by
      rw [insertLetter_eq s a hr (by rw [hc]; decide)]
      rw [insertLetter_eq _ b, insertLetter_eq _ c, insertLetter_eq _ d, insertLetter_eq _ e]
      · simp only [hc]
      all_goals first
        | exact hr
        | (simp only [hc]; decide)
    rw [hrun, hfill]
    have hgc := getCurrentGuess_filled
      { s with
          tiles := setTile (setTile (setTile (setTile (setTile s.tiles
              (s.currentRow * MAX_COLS + 0) [a])
              (s.currentRow * MAX_COLS + 1) [b])
              (s.currentRow * MAX_COLS + 2) [c])
              (s.currentRow * MAX_COLS + 3) [d])
              (s.currentRow * MAX_COLS + 4) [e]
          currentCol := 5 } a b c d e hr rfl
      (by simp [setTile]) (by simp [setTile]) (by simp [setTile]) (by simp [setTile])
      (by simp [setTile])
    have := submitGuess_miss _ [a, b, c, d, e] hgc rfl hne hr
    simpa using this

theorem run_misses (targetWord : List Char) (guesses : List (List Char)) (s : State)
    (hs : s.targetWord = targetWord) (hc : s.currentCol = 0)
    (hlen : s.currentRow + guesses.length ≤ MAX_ROWS)
    (h : ∀ g, g ∈ guesses → g.length = 5 ∧ g ≠ targetWord) :
    (run s (guesses.flatMap typeAndSubmit)).2
        = (List.range guesses.length).map (fun i => missOutcome (s.currentRow + i))
    ∧ (run s (guesses.flatMap typeAndSubmit)).1.currentRow
        = s.currentRow + guesses.length := by
  induction guesses generalizing s with
  | nil => simp [run]
  | cons g rest ih =>
    have hg := h g (List.mem_cons_self _ _)
    have hlen2 : s.currentRow + (rest.length + 1) ≤ MAX_ROWS := by simpa using hlen
    obtain ⟨r1, r2, r3, r4⟩ := run_typeAndSubmit s g hg.1 (by rw [hs]; exact hg.2)
      (by omega) hc
    obtain ⟨i1, i2⟩ := ih (run s (typeAndSubmit g)).1 (by rw [r4, hs]) r3
      (by rw [r2]; omega) (fun g2 hg2 => h g2 (List.mem_cons_of_mem _ hg2))
    rw [List.flatMap_cons, run_append]
    simp only [i1, i2, r1, r2, List.length_cons]
    constructor
    · rw [List.range_succ_eq_map, List.map_cons, List.map_map]
      simp only [List.singleton_append, Nat.add_zero, List.cons.injEq, true_and]
      apply List.map_congr_left
      intro i _
      simp only [Function.comp, Nat.succ_eq_add_one]
      congr 1
      omega
    · omega

/-- C4: from a fresh session, six complete, dictionary-accepted guesses none of
which equals the target end in the outcomes advanced, advanced, advanced, advanced,
advanced, lose: `handleLose` runs on the sixth submission and on no earlier one, and
`currentRow` is then `MAX_ROWS`. -/
theorem six_misses_lose (targetWord : List Char) (guesses : List (List Char))
    (hlen : guesses.length = 6)
    (h : ∀ g, g ∈ guesses → g.length = 5 ∧ g ≠ targetWord) :
    (run (initGame targetWord) (guesses.flatMap typeAndSubmit)).2
        = [Outcome.advanced, Outcome.advanced, Outcome.advanced, Outcome.advanced,
            Outcome.advanced, Outcome.lose]
    ∧ (run (initGame targetWord) (guesses.flatMap typeAndSubmit)).1.currentRow
        = MAX_ROWS := by
  have h0 : (initGame targetWord).currentRow = 0 := rfl
  have hr := run_misses targetWord guesses (initGame targetWord) rfl rfl
    (by rw [hlen, h0]; decide) h
  rw [hlen, h0] at hr
  refine ⟨?_, ?_⟩
  · rw [hr.1]
    decide
  · rw [hr.2]
    rfl

theorem six_misses_lose_witness :
    (run (initGame ['A', 'P', 'P', 'L', 'E'])
        ([['A', 'L', 'E', 'R', 'T'], ['C', 'R', 'A', 'N', 'E'], ['M', 'O', 'U', 'N', 'T'],
          ['P', 'L', 'A', 'T', 'E'], ['A', 'M', 'P', 'L', 'E'],
          ['A', 'P', 'P', 'L', 'Y']].flatMap typeAndSubmit)).2
        = [Outcome.advanced, Outcome.advanced, Outcome.advanced, Outcome.advanced,
            Outcome.advanced, Outcome.lose]
    ∧ (run (initGame ['A', 'P', 'P', 'L', 'E'])
        ([['A', 'L', 'E', 'R', 'T'], ['C', 'R', 'A', 'N', 'E'], ['M', 'O', 'U', 'N', 'T'],
          ['P', 'L', 'A', 'T', 'E'], ['A', 'M', 'P', 'L', 'E'],
          ['A', 'P', 'P', 'L', 'Y']].flatMap typeAndSubmit)).1.currentRow
        = MAX_ROWS :=
  six_misses_lose ['A', 'P', 'P', 'L', 'E']
    [['A', 'L', 'E', 'R', 'T'], ['C', 'R', 'A', 'N', 'E'], ['M', 'O', 'U', 'N', 'T'],
      ['P', 'L', 'A', 'T', 'E'], ['A', 'M', 'P', 'L', 'E'], ['A', 'P', 'P', 'L', 'Y']]
    (by decide) (by decide)

/-! ### After the game has ended -/

/-- Once the row index is `MAX_ROWS` (the sixth miss) with the column at 0, every
input leaves the state as it is, and a submission only reports
`notEnoughLetters`. -/
theorem lost_absorbing (s : State) (hr : s.currentRow = MAX_ROWS) (hc : s.currentCol = 0)
    (i : Input) :
    (step s i).1 = s
    ∧ ((step s i).2 = [] ∨ (step s i).2 = [Outcome.notEnoughLetters]) := by
  cases i with
  | insert letter =>
    simp [step, insertLetter, insertLetterIndex, hr]
  | delete =>
    simp [step, deleteLetter, deleteLetterIndex, hc]
  | submit isRealWord =>
    have hg := getCurrentGuess_short s (by rw [hc]; decide)
    simp [step, submitGuess, hg, MAX_COLS]

/-- C3 (fails after a win): with target APPLE, typing APPLE and pressing enter wins
on row 0 and leaves the row index at 0; pressing enter again evaluates the guess
once more; and five backspaces, ALERT and enter (accepted by the dictionary) are
evaluated as another guess and move the row index to 1. -/
theorem win_not_absorbing :
    (run (initGame ['A', 'P', 'P', 'L', 'E']) (typeAndSubmit ['A', 'P', 'P', 'L', 'E'])).2
        = [Outcome.win]
    ∧ (run (initGame ['A', 'P', 'P', 'L', 'E'])
        (typeAndSubmit ['A', 'P', 'P', 'L', 'E'])).1.currentRow = 0
    ∧ (run (initGame ['A', 'P', 'P', 'L', 'E'])
        (typeAndSubmit ['A', 'P', 'P', 'L', 'E'] ++ [Input.submit true])).2
        = [Outcome.win, Outcome.win]
    ∧ (run (initGame ['A', 'P', 'P', 'L', 'E'])
        (typeAndSubmit ['A', 'P', 'P', 'L', 'E']
          ++ [Input.delete, Input.delete, Input.delete, Input.delete, Input.delete]
          ++ typeAndSubmit ['A', 'L', 'E', 'R', 'T'])).2
        = [Outcome.win, Outcome.advanced]
    ∧ (run (initGame ['A', 'P', 'P', 'L', 'E'])
        (typeAndSubmit ['A', 'P', 'P', 'L', 'E']
          ++ [Input.delete, Input.delete, Input.delete, Input.delete, Input.delete]
          ++ typeAndSubmit ['A', 'L', 'E', 'R', 'T'])).1.currentRow = 1 := by
  decide

end Wordle
